import Mathlib

/-!
Formal model of the semantic-clustering pipeline in
src/cluster_questions_realtime.py (AbstructionAI).

The executed entry point of the script is the function main, which inlines
its own record selection, vector validation, clustering-parameter choice,
per-record update loop and bulk summary upsert.  The module also defines
library helpers (fetch_embeddings, run_hdbscan, compute_clusters,
update_supabase) that main does not call; where their behaviour differs
from the inline code of main, both are modelled.

Numeric idealization: embedding coordinates are modelled as rationals, and
numpy float arithmetic (mean, Euclidean norm) as exact arithmetic.  Since
the square root is strictly monotone on nonnegative numbers, the argmin of
Euclidean distances computed by np.linalg.norm followed by np.argmin is
the argmin of squared distances, which is what the model computes.

External collaborators are modelled at their interface:
- json.loads is modelled by storing, next to each textual embedding, the
  value the parser returns on it (none when parsing raises);
- the HDBSCAN clusterer is a parameter of the pipeline: a function from
  the minimum-cluster-size parameter and the data matrix to a label list;
- store failures are modelled by a StoreOps record telling which
  per-record updates and which upserts raise.
-/

namespace Clustering

/-- Scalar JSON values (everything except arrays and objects). -/
inductive JsonScalar where
  | jnull : JsonScalar
  | jbool : Bool → JsonScalar
  | jnum : ℚ → JsonScalar
  | jstr : String → JsonScalar
deriving DecidableEq, Repr

/-- An element of a JSON array: a scalar, or a nested array or object.
The pipeline only inspects whether an element is a number, so nested
composites need no further structure. -/
inductive JsonElem where
  | scalar : JsonScalar → JsonElem
  | composite : JsonElem
deriving DecidableEq, Repr

/-- A JSON value as the Python client sees it. -/
inductive JsonVal where
  | scalar : JsonScalar → JsonVal
  | arr : List JsonElem → JsonVal
  | obj : JsonVal
deriving DecidableEq, Repr

/-- The raw value of the embedding column of one row, as fetched from the
store.  A stored string carries the result of applying json.loads to it
(none when the parser raises); any non-string native value is wrapped in
the val constructor. -/
inductive RawEmbedding where
  | null : RawEmbedding
  | str : String → Option JsonVal → RawEmbedding
  | val : JsonVal → RawEmbedding
deriving DecidableEq, Repr

/-- One row of the interactions table. -/
structure InteractionRecord where
  id : ℕ
  query : String
  embedding : RawEmbedding
  clusterId : Option ℤ
  isNoise : Bool
  clusteringVersion : Option String
deriving DecidableEq, Repr

/-- The version tag stamped on every update and summary of a run
(CLUSTERING_VERSION in the source). -/
def CLUSTERING_VERSION : String := "v1-hdbscan-202406"

/-- The record selection of main (lines 151 to 161): full mode selects
every record, incremental mode selects the records whose cluster_id is
null.  The is_noise flag is not consulted. -/
def selectRecords (store : List InteractionRecord) (fullRecluster : Bool) :
    List InteractionRecord :=
  if fullRecluster then store else store.filter (fun r => decide (r.clusterId = none))

/-- The inline vector validator of main (lines 171 to 184): a record is
kept when its embedding value is not null, not the literal string None,
not the empty string, and is either a string that parses to a list with
positive length or a native list with positive length.  Element types are
not inspected. -/
def isValidEmbedding : RawEmbedding → Bool
  | RawEmbedding.null => false
  | RawEmbedding.str s parsed =>
      if s = "None" ∨ s = "" then false
      else
        match parsed with
        | some (JsonVal.arr elems) => decide (0 < elems.length)
        | _ => false
  | RawEmbedding.val (JsonVal.arr elems) => decide (0 < elems.length)
  | RawEmbedding.val _ => false

/-- The working set of a run: the selected records that pass the
validator. -/
def workingSet (store : List InteractionRecord) (fullRecluster : Bool) :
    List InteractionRecord :=
  (selectRecords store fullRecluster).filter (fun r => isValidEmbedding r.embedding)

/-- The list of JSON array elements behind a validated embedding value
(main lines 196 to 201: a stored string is parsed, a native list is used
as is). -/
def extractElems : RawEmbedding → List JsonElem
  | RawEmbedding.str _ (some (JsonVal.arr elems)) => elems
  | RawEmbedding.val (JsonVal.arr elems) => elems
  | _ => []

/-- Numeric reading of one JSON array element, as np.array needs it. -/
def elemToNum : JsonElem → Option ℚ
  | JsonElem.scalar (JsonScalar.jnum q) => some q
  | _ => none

/-- Numeric reading of the whole element list, none as soon as one
element is not a number. -/
def elemsToNums : List JsonElem → Option (List ℚ)
  | [] => some []
  | e :: es =>
      match elemToNum e, elemsToNums es with
      | some q, some qs => some (q :: qs)
      | _, _ => none

/-- The numeric vector of a record, when every element is a number. -/
def toVec (e : RawEmbedding) : Option (List ℚ) :=
  elemsToNums (extractElems e)

/-- The numeric matrix of the validated records, none when some record
holds non-numeric data, in which case np.array and HDBSCAN fail. -/
def toVecs : List InteractionRecord → Option (List (List ℚ))
  | [] => some []
  | r :: rest =>
      match toVec r.embedding, toVecs rest with
      | some v, some vs => some (v :: vs)
      | _, _ => none

/-- Whether all vectors of the matrix share one length; a jagged matrix
makes np.array and HDBSCAN fail, which the model treats as fatal. -/
def sameLengths : List (List ℚ) → Bool
  | [] => true
  | v :: vs => vs.all (fun w => w.length == v.length)

/-- The minimum-cluster-size choice of main (lines 206 to 213): 2 below
ten points, otherwise max 2 of a tenth of the data. -/
def main_min_cluster_size (n : ℕ) : ℕ :=
  if n < 10 then 2 else max 2 (n / 10)

/-- The minimum-cluster-size choice of the library helper run_hdbscan
(line 66): max 5 of a hundredth of the data, rounded down by int. -/
def run_hdbscan_min_cluster_size (n : ℕ) : ℕ :=
  max 5 (n / 100)

/-- Modelled from the spec: the minimum-cluster-size formula the spec
states, max 5 of the ceiling of one percent of the data for large
batches, with the fixed fallback 2 below about ten points.  Written from
the words of the spec for comparison with the formulas of the source. -/
def specMinClusterSize (n : ℕ) : ℕ :=
  if n < 10 then 2 else max 5 (Nat.ceil ((n : ℚ) / 100))

/-- One labeled row of the working set after clustering: the record data
main keeps in its data frame together with the assigned label. -/
structure LabeledRow where
  id : ℕ
  query : String
  emb : List ℚ
  label : ℤ
deriving DecidableEq, Repr

instance : Inhabited LabeledRow := ⟨⟨0, "", [], 0⟩⟩

/-- Zip the validated records with their numeric vectors and labels. -/
def zipRows (valid : List InteractionRecord) (X : List (List ℚ))
    (labels : List ℤ) : List LabeledRow :=
  (valid.zip (X.zip labels)).map
    (fun p => { id := p.1.id, query := p.1.query, emb := p.2.1, label := p.2.2 })

/-- The per-record update payload (main lines 242 to 248, identical to
update_supabase lines 100 to 104): noise points get a null cluster_id and
is_noise true, others get their label and is_noise false; every payload
carries the version tag of the run. -/
structure RecordUpdate where
  id : ℕ
  cluster_id : Option ℤ
  is_noise : Bool
  clustering_version : String
deriving DecidableEq, Repr

def mkUpdate (r : LabeledRow) : RecordUpdate :=
  { id := r.id
  , cluster_id := if r.label = -1 then none else some r.label
  , is_noise := decide (r.label = -1)
  , clustering_version := CLUSTERING_VERSION }

/-- Which store calls raise: per-record updates by record id, per-cluster
upserts by cluster id, and the single bulk upsert main issues. -/
structure StoreOps where
  updateFails : ℕ → Bool
  upsertFails : ℤ → Bool
  bulkUpsertFails : Bool

/-- The update loop of main (lines 241 to 249).  It has no per-record
exception handling: the first raising update aborts the loop.  The result
is the list of updates applied before the failure, and the id of the
failing record when one fails. -/
def mainUpdateLoop (ops : StoreOps) : List LabeledRow → List RecordUpdate × Option ℕ
  | [] => ([], none)
  | r :: rest =>
      if ops.updateFails r.id then ([], some r.id)
      else
        let p := mainUpdateLoop ops rest
        (mkUpdate r :: p.1, p.2)

/-- Squared Euclidean distance between two vectors. -/
def sqDist (a b : List ℚ) : ℚ :=
  (List.zipWith (fun x y => (x - y) ^ 2) a b).sum

/-- Elementwise vector sum. -/
def addVec (a b : List ℚ) : List ℚ := List.zipWith (· + ·) a b

/-- Sum of a list of vectors (empty list gives the empty vector). -/
def sumVecs : List (List ℚ) → List ℚ
  | [] => []
  | [v] => v
  | v :: w :: rest => addVec v (sumVecs (w :: rest))

/-- Elementwise mean of a list of vectors, the model of np.mean with
axis 0. -/
def meanVec (vs : List (List ℚ)) : List ℚ :=
  (sumVecs vs).map (fun x => x / (vs.length : ℚ))

/-- Index of the first minimal element of a list, the model of
np.argmin. -/
def argminIdx : List ℚ → ℕ
  | [] => 0
  | x :: xs => if ∀ y ∈ xs, x ≤ y then 0 else argminIdx xs + 1

/-- One cluster summary row (main lines 268 to 274). -/
structure ClusterSummary where
  id : ℤ
  size : ℕ
  centroid : List ℚ
  representative_query : String
  clustering_version : String
deriving DecidableEq, Repr

/-- First-occurrence deduplication of a label list, the model of
iterating over the set of labels (the iteration order of a Python set is
unspecified; no property below depends on the order). -/
def dedupFirst : List ℤ → List ℤ
  | [] => []
  | x :: xs => x :: (dedupFirst xs).filter (fun y => decide (y ≠ x))

/-- The members of one cluster: the rows of the working set carrying that
label, in working-set order. -/
def clusterMembers (rows : List LabeledRow) (cid : ℤ) : List LabeledRow :=
  rows.filter (fun r => decide (r.label = cid))

/-- The summary of one cluster (main lines 257 to 274): centroid is the
mean of the member vectors, the representative query is the query of the
member whose vector attains the first argmin of distance to the centroid,
size is the member count. -/
def mkSummary (rows : List LabeledRow) (cid : ℤ) : ClusterSummary :=
  let members := clusterMembers rows cid
  let centroid := meanVec (members.map (fun m => m.emb))
  let dists := members.map (fun m => sqDist m.emb centroid)
  { id := cid
  , size := members.length
  , centroid := centroid
  , representative_query := (members.getD (argminIdx dists) default).query
  , clustering_version := CLUSTERING_VERSION }

/-- The summary list of a run (main lines 252 to 274): one summary per
distinct label other than the noise marker -1. -/
def computeSummaries (rows : List LabeledRow) : List ClusterSummary :=
  ((dedupFirst (rows.map (fun r => r.label))).filter (fun l => decide (l ≠ -1))).map
    (mkSummary rows)

/-- The outcome of one run of main.  noData models the early return when
the fetch returns nothing, noValid the early return when no record passes
the validator; fatalError models an exception reaching the outer handler
of main, which logs ERROR and re-raises; completed carries the record
updates applied and the summaries upserted. -/
inductive RunOutcome where
  | noData : RunOutcome
  | noValid : RunOutcome
  | fatalError : List RecordUpdate → RunOutcome
  | completed : List RecordUpdate → List ClusterSummary → RunOutcome
deriving DecidableEq, Repr

/-- The pipeline of main from the point where the validated working set
is known to be non-empty (lines 192 to 289): build the matrix, cluster
with the adaptive parameter, update every row without per-record
exception handling, then bulk-upsert the summary list when it is
non-empty. -/
def runCore (valid : List InteractionRecord)
    (hdbscan : ℕ → List (List ℚ) → List ℤ) (ops : StoreOps) : RunOutcome :=
  match toVecs valid with
  | none => RunOutcome.fatalError []
  | some X =>
      if sameLengths X then
        let labels := hdbscan (main_min_cluster_size X.length) X
        let rows := zipRows valid X labels
        match mainUpdateLoop ops rows with
        | (applied, some _) => RunOutcome.fatalError applied
        | (applied, none) =>
            let summaries := computeSummaries rows
            if summaries.isEmpty then RunOutcome.completed applied summaries
            else if ops.bulkUpsertFails then RunOutcome.fatalError applied
            else RunOutcome.completed applied summaries
      else RunOutcome.fatalError []

/-- The pipeline of main (lines 149 to 293), with the clusterer passed in
as a function of the minimum-cluster-size parameter and the data
matrix. -/
def runMain (store : List InteractionRecord) (fullRecluster : Bool)
    (hdbscan : ℕ → List (List ℚ) → List ℤ) (ops : StoreOps) : RunOutcome :=
  let selected := selectRecords store fullRecluster
  if selected.isEmpty then RunOutcome.noData
  else
    let valid := selected.filter (fun r => isValidEmbedding r.embedding)
    if valid.isEmpty then RunOutcome.noValid
    else runCore valid hdbscan ops

/-- The record updates a run outcome applied to the store. -/
def outcomeUpdates : RunOutcome → List RecordUpdate
  | RunOutcome.noData => []
  | RunOutcome.noValid => []
  | RunOutcome.fatalError applied => applied
  | RunOutcome.completed applied _ => applied

/-- The summaries a run outcome upserted into the store. -/
def outcomeSummaries : RunOutcome → List ClusterSummary
  | RunOutcome.completed _ summaries => summaries
  | _ => []

/-- Whether the outcome is a successful exit of main (an early return or
a completed run, as opposed to a raised exception). -/
def isSuccess : RunOutcome → Bool
  | RunOutcome.fatalError _ => false
  | _ => true

/-- One event of the library Persistence Sync function update_supabase. -/
inductive SyncEvent where
  | recordUpdated : RecordUpdate → SyncEvent
  | recordUpdateFailed : ℕ → SyncEvent
  | clusterUpserted : ClusterSummary → SyncEvent
  | clusterUpsertFailed : ℤ → SyncEvent
deriving DecidableEq, Repr

/-- The attempt update_supabase makes for one record (lines 99 to 109):
the update is issued inside a try block, a raising call is logged and the
loop continues. -/
def updateEvent (ops : StoreOps) (r : LabeledRow) : SyncEvent :=
  if ops.updateFails r.id then SyncEvent.recordUpdateFailed r.id
  else SyncEvent.recordUpdated (mkUpdate r)

/-- The attempt update_supabase makes for one summary (lines 111 to 115):
each upsert is issued inside its own try block. -/
def upsertEvent (ops : StoreOps) (c : ClusterSummary) : SyncEvent :=
  if ops.upsertFails c.id then SyncEvent.clusterUpsertFailed c.id
  else SyncEvent.clusterUpserted c

/-- The event trace of the library function update_supabase (lines 97 to
116): one attempt per record, then one attempt per summary, no failure
stopping the loops. -/
def update_supabase (ops : StoreOps) (rows : List LabeledRow)
    (clusters : List ClusterSummary) : List SyncEvent :=
  rows.map (updateEvent ops) ++ clusters.map (upsertEvent ops)

/-- Upsert by id into the semantic_clusters table: overwrite the rows
carrying the same id when present, append otherwise. -/
def upsertById (table : List ClusterSummary) (c : ClusterSummary) :
    List ClusterSummary :=
  if table.any (fun x => x.id == c.id) then
    table.map (fun x => if x.id = c.id then c else x)
  else table ++ [c]

/-! Concrete sample data used to instantiate the theorems below. -/

/-- A native embedding value holding the given numbers. -/
def numListEmbedding (qs : List ℚ) : RawEmbedding :=
  RawEmbedding.val (JsonVal.arr (qs.map (fun q => JsonElem.scalar (JsonScalar.jnum q))))

/-- Store operations where every call succeeds. -/
def noFailOps : StoreOps := ⟨fun _ => false, fun _ => false, false⟩

/-- Store operations where the update of the record with id 1 raises. -/
def opsFail1 : StoreOps := ⟨fun i => decide (i = 1), fun _ => false, false⟩

/-- Store operations where the bulk upsert of the summary list raises. -/
def opsBulkFail : StoreOps := ⟨fun _ => false, fun _ => false, true⟩

/-- A clusterer marking every point as noise. -/
def hlAllNoise : ℕ → List (List ℚ) → List ℤ := fun _ X => X.map (fun _ => -1)

/-- A clusterer putting every point into cluster 0. -/
def hlAllZero : ℕ → List (List ℚ) → List ℤ := fun _ X => X.map (fun _ => 0)

/-- A never-clustered record with a valid one-dimensional embedding. -/
def recA : InteractionRecord := ⟨1, "a", numListEmbedding [5], none, false, none⟩

/-- A second never-clustered record with a valid embedding. -/
def recB : InteractionRecord := ⟨2, "b", numListEmbedding [7], none, false, none⟩

/-- A record already assigned to cluster 3 by an earlier run. -/
def recAssigned : InteractionRecord :=
  ⟨3, "c", numListEmbedding [6], some 3, false, some CLUSTERING_VERSION⟩

/-- A record classified as noise by an earlier run: null cluster id,
noise flag set. -/
def recNoise : InteractionRecord :=
  ⟨7, "w", numListEmbedding [1], none, true, some CLUSTERING_VERSION⟩

/-- A record whose stored embedding is a textual value parsing to a
non-empty list whose single element is a string, not a number. -/
def recBadList : InteractionRecord :=
  ⟨4, "q", RawEmbedding.str "[\"a\"]"
    (some (JsonVal.arr [JsonElem.scalar (JsonScalar.jstr "a")])), none, false, none⟩

/-- A record with a null stored embedding. -/
def recNullEmb : InteractionRecord := ⟨5, "e", RawEmbedding.null, none, false, none⟩

/-- Sample labeled rows: one cluster with the single member of id 1, one
noise row. -/
def rowsW : List LabeledRow := [⟨1, "a", [5], 0⟩, ⟨2, "x", [7], -1⟩]

/-- The summary the pipeline computes on rowsW. -/
def summaryW : ClusterSummary := ⟨0, 1, [5], "a", CLUSTERING_VERSION⟩

/-! Helper lemmas on lists, vector sums and the argmin function. -/

theorem mem_of_mem_dedupFirst {a : ℤ} {l : List ℤ} (h : a ∈ dedupFirst l) : a ∈ l := by
  induction l with
  | nil => simp [dedupFirst] at h
  | cons x xs ih =>
      simp only [dedupFirst, List.mem_cons] at h ⊢
      rcases h with rfl | h
      · exact Or.inl rfl
      · exact Or.inr (ih (List.mem_of_mem_filter h))

theorem getD_zipWith {f : ℚ → ℚ → ℚ} {a b : List ℚ} {j : ℕ}
    (ha : j < a.length) (hb : j < b.length) :
    (List.zipWith f a b).getD j 0 = f (a.getD j 0) (b.getD j 0) := by
  have hz : j < (List.zipWith f a b).length := by
    rw [List.length_zipWith]; omega
  rw [List.getD_eq_getElem _ _ hz, List.getD_eq_getElem _ _ ha,
    List.getD_eq_getElem _ _ hb, List.getElem_zipWith]

theorem sumVecs_length {vs : List (List ℚ)} {d : ℕ}
    (h : ∀ v ∈ vs, v.length = d) (hne : vs ≠ []) : (sumVecs vs).length = d := by
  induction vs with
  | nil => exact absurd rfl hne
  | cons v rest ih =>
      cases rest with
      | nil => simpa using h v (by simp)
      | cons w tail =>
          have hrest : (sumVecs (w :: tail)).length = d :=
            ih (fun u hu => h u (List.mem_cons_of_mem _ hu)) (by simp)
          have hv : v.length = d := h v (by simp)
          simp only [sumVecs, addVec, List.length_zipWith, hrest, hv, min_self]

theorem sumVecs_getD {vs : List (List ℚ)} {d j : ℕ}
    (h : ∀ v ∈ vs, v.length = d) (hne : vs ≠ []) (hj : j < d) :
    (sumVecs vs).getD j 0 = (vs.map (fun v => v.getD j 0)).sum := by
  induction vs with
  | nil => exact absurd rfl hne
  | cons v rest ih =>
      cases rest with
      | nil => simp [sumVecs]
      | cons w tail =>
          have hrest : ∀ u ∈ w :: tail, u.length = d :=
            fun u hu => h u (List.mem_cons_of_mem _ hu)
          have hlen : (sumVecs (w :: tail)).length = d := sumVecs_length hrest (by simp)
          have hv : j < v.length := by rw [h v (by simp)]; exact hj
          have hs : j < (sumVecs (w :: tail)).length := by rw [hlen]; exact hj
          simp only [sumVecs, addVec]
          rw [getD_zipWith hv hs, ih hrest (by simp)]
          simp [List.sum_cons]

theorem meanVec_length {vs : List (List ℚ)} {d : ℕ}
    (h : ∀ v ∈ vs, v.length = d) (hne : vs ≠ []) : (meanVec vs).length = d := by
  simp [meanVec, sumVecs_length h hne]

theorem meanVec_getD {vs : List (List ℚ)} {d j : ℕ}
    (h : ∀ v ∈ vs, v.length = d) (hne : vs ≠ []) (hj : j < d) :
    (meanVec vs).getD j 0 =
      (vs.map (fun v => v.getD j 0)).sum / (vs.length : ℚ) := by
  have hs : j < (sumVecs vs).length := by rw [sumVecs_length h hne]; exact hj
  have hm : j < (meanVec vs).length := by rw [meanVec_length h hne]; exact hj
  rw [List.getD_eq_getElem _ _ hm]
  simp only [meanVec, List.getElem_map]
  rw [← List.getD_eq_getElem _ (0 : ℚ) hs, sumVecs_getD h hne hj]

theorem argminIdx_lt_length {l : List ℚ} (h : l ≠ []) : argminIdx l < l.length := by
  induction l with
  | nil => exact absurd rfl h
  | cons x xs ih =>
      by_cases hall : ∀ y ∈ xs, x ≤ y
      · simp only [argminIdx, if_pos hall, List.length_cons]
        exact Nat.succ_pos _
      · have hxs : xs ≠ [] := by
          intro hnil; exact hall (by simp [hnil])
        simp only [argminIdx, if_neg hall, List.length_cons]
        exact Nat.succ_lt_succ (ih hxs)

theorem argminIdx_min (l : List ℚ) : ∀ j, j < l.length →
    l.getD (argminIdx l) 0 ≤ l.getD j 0 := by
  induction l with
  | nil => intro j hj; simp at hj
  | cons x xs ih =>
      intro j hj
      by_cases hall : ∀ y ∈ xs, x ≤ y
      · simp only [argminIdx, if_pos hall, List.getD_cons_zero]
        cases j with
        | zero => rw [List.getD_cons_zero]
        | succ m =>
            rw [List.getD_cons_succ]
            have hm : m < xs.length := by simpa using hj
            rw [List.getD_eq_getElem xs 0 hm]
            exact hall _ (List.getElem_mem hm)
      · push_neg at hall
        obtain ⟨y, hy, hxy⟩ := hall
        have hneg : ¬ ∀ y ∈ xs, x ≤ y := by push_neg; exact ⟨y, hy, hxy⟩
        have hmin_y : xs.getD (argminIdx xs) 0 ≤ y := by
          obtain ⟨i, hi, rfl⟩ := List.mem_iff_getElem.mp hy
          have h2 := ih i hi
          rwa [List.getD_eq_getElem xs 0 hi] at h2
        simp only [argminIdx, if_neg hneg, List.getD_cons_succ]
        cases j with
        | zero =>
            rw [List.getD_cons_zero]
            exact le_of_lt (lt_of_le_of_lt hmin_y hxy)
        | succ m =>
            rw [List.getD_cons_succ]
            exact ih m (by simpa using hj)

theorem argminIdx_first (l : List ℚ) : ∀ j, j < argminIdx l →
    l.getD (argminIdx l) 0 < l.getD j 0 := by
  induction l with
  | nil => intro j hj; simp [argminIdx] at hj
  | cons x xs ih =>
      intro j hj
      by_cases hall : ∀ y ∈ xs, x ≤ y
      · simp only [argminIdx, if_pos hall] at hj
        exact absurd hj (Nat.not_lt_zero j)
      · push_neg at hall
        obtain ⟨y, hy, hxy⟩ := hall
        have hneg : ¬ ∀ y ∈ xs, x ≤ y := by push_neg; exact ⟨y, hy, hxy⟩
        have hmin_y : xs.getD (argminIdx xs) 0 ≤ y := by
          obtain ⟨i, hi, rfl⟩ := List.mem_iff_getElem.mp hy
          have h2 := argminIdx_min xs i hi
          rwa [List.getD_eq_getElem xs 0 hi] at h2
        simp only [argminIdx, if_neg hneg] at hj ⊢
        rw [List.getD_cons_succ]
        cases j with
        | zero =>
            rw [List.getD_cons_zero]
            exact lt_of_le_of_lt hmin_y hxy
        | succ m =>
            rw [List.getD_cons_succ]
            exact ih m (by omega)

/-! Helper lemmas on the pipeline functions. -/

theorem natCeil_div_100 (n : ℕ) : Nat.ceil ((n : ℚ) / 100) = (n + 99) / 100 := by
  apply le_antisymm
  · rw [Nat.ceil_le, div_le_iff₀ (by norm_num : (0:ℚ) < 100)]
    exact_mod_cast (by omega : n ≤ ((n + 99) / 100) * 100)
  · rcases Nat.eq_zero_or_pos ((n + 99) / 100) with h0 | h0
    · simp [h0]
    · have h1 : ((n + 99) / 100 - 1) * 100 < n := by omega
      have h2 : (((n + 99) / 100 - 1 : ℕ) : ℚ) < (n : ℚ) / 100 := by
        rw [lt_div_iff₀ (by norm_num : (0:ℚ) < 100)]
        exact_mod_cast h1
      have h3 := Nat.lt_ceil.mpr h2
      omega

theorem specMinClusterSize_eval (n : ℕ) :
    specMinClusterSize n = if n < 10 then 2 else max 5 ((n + 99) / 100) := by
  simp only [specMinClusterSize, natCeil_div_100]

theorem mem_mainUpdateLoop {ops : StoreOps} {rows : List LabeledRow} {u : RecordUpdate}
    (h : u ∈ (mainUpdateLoop ops rows).1) : ∃ r ∈ rows, u = mkUpdate r := by
  induction rows with
  | nil => simp [mainUpdateLoop] at h
  | cons r rest ih =>
      by_cases hf : ops.updateFails r.id = true
      · simp [mainUpdateLoop, hf] at h
      · simp only [mainUpdateLoop, if_neg hf, List.mem_cons] at h
        rcases h with rfl | h
        · exact ⟨r, by simp, rfl⟩
        · obtain ⟨r2, hr2, hu⟩ := ih h
          exact ⟨r2, List.mem_cons_of_mem _ hr2, hu⟩

theorem mainUpdateLoop_ok {ops : StoreOps} (hops : ∀ n, ops.updateFails n = false)
    (rows : List LabeledRow) : mainUpdateLoop ops rows = (rows.map mkUpdate, none) := by
  induction rows with
  | nil => rfl
  | cons r rest ih => simp [mainUpdateLoop, hops r.id, ih]

theorem mem_zipRows {valid : List InteractionRecord} {X : List (List ℚ)}
    {labels : List ℤ} {row : LabeledRow} (h : row ∈ zipRows valid X labels) :
    ∃ v ∈ valid, row.id = v.id ∧ row.query = v.query ∧ row.label ∈ labels := by
  simp only [zipRows, List.mem_map] at h
  obtain ⟨⟨v, e, lb⟩, hp, rfl⟩ := h
  have h1 := List.of_mem_zip hp
  have h2 := List.of_mem_zip h1.2
  exact ⟨v, h1.1, rfl, rfl, h2.2⟩

theorem runCore_update_source {valid : List InteractionRecord}
    {hl : ℕ → List (List ℚ) → List ℤ} {ops : StoreOps} {u : RecordUpdate}
    (h : u ∈ outcomeUpdates (runCore valid hl ops)) :
    ∃ row : LabeledRow, u = mkUpdate row ∧ ∃ v ∈ valid, row.id = v.id := by
  simp only [runCore] at h
  split at h
  · simp [outcomeUpdates] at h
  · rename_i X hX
    split at h
    · rename_i hs
      split at h
      · rename_i applied i heq
        have h' : u ∈ (mainUpdateLoop ops
            (zipRows valid X (hl (main_min_cluster_size X.length) X))).1 := by
          rw [heq]; exact h
        obtain ⟨r, hr, rfl⟩ := mem_mainUpdateLoop h'
        obtain ⟨v, hv, hid, -, -⟩ := mem_zipRows hr
        exact ⟨r, rfl, v, hv, hid⟩
      · rename_i applied heq
        have h' : u ∈ (mainUpdateLoop ops
            (zipRows valid X (hl (main_min_cluster_size X.length) X))).1 := by
          rw [heq]
          split at h
          · exact h
          · split at h
            · exact h
            · exact h
        obtain ⟨r, hr, rfl⟩ := mem_mainUpdateLoop h'
        obtain ⟨v, hv, hid, -, -⟩ := mem_zipRows hr
        exact ⟨r, rfl, v, hv, hid⟩
    · simp [outcomeUpdates] at h

theorem runMain_update_source {store : List InteractionRecord} {mode : Bool}
    {hl : ℕ → List (List ℚ) → List ℤ} {ops : StoreOps} {u : RecordUpdate}
    (h : u ∈ outcomeUpdates (runMain store mode hl ops)) :
    ∃ row : LabeledRow, u = mkUpdate row ∧ ∃ v ∈ workingSet store mode, row.id = v.id := by
  simp only [runMain] at h
  split at h
  · simp [outcomeUpdates] at h
  · split at h
    · simp [outcomeUpdates] at h
    · simpa [workingSet] using runCore_update_source h

theorem workingSet_incremental_unassigned {store : List InteractionRecord}
    {r : InteractionRecord} (h : r ∈ workingSet store false) : r.clusterId = none := by
  simp only [workingSet, selectRecords, Bool.false_eq_true, if_false, List.mem_filter,
    decide_eq_true_eq] at h
  exact h.1.2

theorem selectRecords_mono {pre post : List InteractionRecord} {r b : InteractionRecord}
    {mode : Bool} (h : b ∈ selectRecords (pre ++ post) mode) :
    b ∈ selectRecords (pre ++ r :: post) mode := by
  cases mode
  · simp only [selectRecords, Bool.false_eq_true, if_false, List.mem_filter,
      List.mem_append] at h ⊢
    tauto
  · simp only [selectRecords, if_true, List.mem_append, List.mem_cons] at h ⊢
    tauto

theorem toVecs_length {valid : List InteractionRecord} {X : List (List ℚ)}
    (h : toVecs valid = some X) : X.length = valid.length := by
  induction valid generalizing X with
  | nil =>
      simp only [toVecs, Option.some_inj] at h
      simp [← h]
  | cons r rest ih =>
      simp only [toVecs] at h
      cases hv : toVec r.embedding with
      | none => rw [hv] at h; simp at h
      | some v =>
          rw [hv] at h
          cases hr : toVecs rest with
          | none => rw [hr] at h; simp at h
          | some vs =>
              rw [hr] at h
              simp only [Option.some_inj] at h
              rw [← h]
              simp [ih hr]

theorem zipRows_map_mkUpdate_all_noise :
    ∀ (valid : List InteractionRecord) (X : List (List ℚ)), X.length = valid.length →
    (zipRows valid X (List.replicate X.length (-1))).map mkUpdate =
      valid.map (fun r => (⟨r.id, none, true, CLUSTERING_VERSION⟩ : RecordUpdate)) := by
  intro valid
  induction valid with
  | nil => intro X h; simp [zipRows]
  | cons v vs ih =>
      intro X h
      cases X with
      | nil => simp at h
      | cons x xs =>
          have hx : xs.length = vs.length := by simpa using h
          have htail := ih xs hx
          simp only [zipRows, List.map_map] at htail
          simp only [zipRows, List.length_cons, List.replicate_succ, List.zip_cons_cons,
            List.map_cons, List.map_map]
          rw [htail]
          simp [mkUpdate]

theorem filter_valid_erase (pre post : List InteractionRecord) (r : InteractionRecord)
    (mode : Bool) (hinv : isValidEmbedding r.embedding = false) :
    (selectRecords (pre ++ r :: post) mode).filter (fun x => isValidEmbedding x.embedding) =
      (selectRecords (pre ++ post) mode).filter (fun x => isValidEmbedding x.embedding) := by
  cases mode
  · simp only [selectRecords, Bool.false_eq_true, if_false]
    rw [List.filter_filter, List.filter_filter]
    simp [List.filter_append, List.filter_cons, hinv]
  · simp only [selectRecords, if_true]
    simp [List.filter_append, List.filter_cons, hinv]

theorem mkSummary_eval (rows : List LabeledRow) (cid : ℤ) :
    mkSummary rows cid =
      { id := cid
      , size := (clusterMembers rows cid).length
      , centroid := meanVec ((clusterMembers rows cid).map (fun m => m.emb))
      , representative_query :=
          ((clusterMembers rows cid).getD
            (argminIdx ((clusterMembers rows cid).map (fun m =>
              sqDist m.emb (meanVec ((clusterMembers rows cid).map (fun m => m.emb))))))
            default).query
      , clustering_version := CLUSTERING_VERSION } := rfl

/-! The claims. -/

/-- C3 counterexample: at one hundred points the executed driver passes
minimum cluster size ten, not the max of five and the ceiling of one
percent that the claim states; at three points the library helper
run_hdbscan passes five, not the claimed small fallback of two. -/
theorem min_cluster_size_spec_mismatch :
    main_min_cluster_size 100 = 10 ∧ specMinClusterSize 100 = 5 ∧
    main_min_cluster_size 100 ≠ specMinClusterSize 100 ∧
    run_hdbscan_min_cluster_size 3 = 5 ∧ specMinClusterSize 3 = 2 ∧
    run_hdbscan_min_cluster_size 3 ≠ specMinClusterSize 3 := by
  have h100 : specMinClusterSize 100 = 5 := by rw [specMinClusterSize_eval]; decide
  have h3 : specMinClusterSize 3 = 2 := by rw [specMinClusterSize_eval]; decide
  refine ⟨by decide, h100, ?_, by decide, h3, ?_⟩
  · rw [h100]; decide
  · rw [h3]; decide

/-- C3 (amended): the executed driver passes minimum cluster size 2 when
the working set has fewer than ten points and otherwise the max of 2 and
a tenth of the point count; the library helper run_hdbscan passes the max
of 5 and a hundredth of the point count rounded down, with no small-input
fallback.  Only below ten points does the executed driver agree with the
formula the claim states. -/
theorem min_cluster_size_code_formulas (n : ℕ) :
    main_min_cluster_size n = (if n < 10 then 2 else max 2 (n / 10)) ∧
    run_hdbscan_min_cluster_size n = max 5 (n / 100) ∧
    (n < 10 → main_min_cluster_size n = specMinClusterSize n) := by
  refine ⟨rfl, rfl, fun h => ?_⟩
  rw [specMinClusterSize_eval]
  simp [main_min_cluster_size, if_pos h]

/-- Witness for the amended C3 claim at three points. -/
theorem min_cluster_size_code_formulas_witness :
    3 < 10 ∧ main_min_cluster_size 3 = specMinClusterSize 3 :=
  ⟨by decide, (min_cluster_size_code_formulas 3).2.2 (by decide)⟩

/-- C5: every record update a run writes satisfies the noise invariant:
the noise flag is set exactly when the written cluster id is null. -/
theorem noise_iff_null_cluster (store : List InteractionRecord) (mode : Bool)
    (hl : ℕ → List (List ℚ) → List ℤ) (ops : StoreOps) :
    ∀ u ∈ outcomeUpdates (runMain store mode hl ops),
      (u.is_noise = true ↔ u.cluster_id = none) := by
  intro u hu
  obtain ⟨row, rfl, -⟩ := runMain_update_source hu
  by_cases hlbl : row.label = -1 <;> simp [mkUpdate, hlbl]

/-- Witness for C5 on a concrete two-record all-noise run. -/
theorem noise_iff_null_cluster_witness :
    (⟨1, none, true, CLUSTERING_VERSION⟩ : RecordUpdate) ∈
      outcomeUpdates (runMain [recA, recB] false hlAllNoise noFailOps) ∧
    ((⟨1, none, true, CLUSTERING_VERSION⟩ : RecordUpdate).is_noise = true ↔
      (⟨1, none, true, CLUSTERING_VERSION⟩ : RecordUpdate).cluster_id = none) :=
  ⟨by decide, noise_iff_null_cluster [recA, recB] false hlAllNoise noFailOps _ (by decide)⟩

/-- C9: a run whose working set is empty exits successfully, writes no
record update, upserts no summary, and its outcome does not depend on the
clusterer or on the store operations, which are therefore never
invoked. -/
theorem empty_working_set_success (store : List InteractionRecord) (mode : Bool)
    (hl hl' : ℕ → List (List ℚ) → List ℤ) (ops ops' : StoreOps)
    (h : workingSet store mode = []) :
    isSuccess (runMain store mode hl ops) = true ∧
    outcomeUpdates (runMain store mode hl ops) = [] ∧
    outcomeSummaries (runMain store mode hl ops) = [] ∧
    runMain store mode hl ops = runMain store mode hl' ops' := by
  have hv : (selectRecords store mode).filter (fun r => isValidEmbedding r.embedding) = [] := h
  by_cases e1 : (selectRecords store mode).isEmpty
  · simp [runMain, e1, isSuccess, outcomeUpdates, outcomeSummaries]
  · simp [runMain, e1, hv, isSuccess, outcomeUpdates, outcomeSummaries]

/-- C1: every summary the Cluster Summarizer produces on the labeled
working set of a run has a size equal to the number of working-set rows
carrying the label of the summary, and a centroid whose entry at each
coordinate is the arithmetic mean of that coordinate over the embeddings
of exactly those rows. -/
theorem centroid_is_member_mean (rows : List LabeledRow) (d : ℕ)
    (hd : ∀ r ∈ rows, r.emb.length = d) :
    ∀ s ∈ computeSummaries rows,
      clusterMembers rows s.id ≠ [] ∧
      s.size = (clusterMembers rows s.id).length ∧
      s.centroid.length = d ∧
      ∀ j, j < d →
        s.centroid.getD j 0 =
          ((clusterMembers rows s.id).map (fun m => m.emb.getD j 0)).sum /
            ((clusterMembers rows s.id).length : ℚ) := by
  intro s hs
  simp only [computeSummaries, List.mem_map, List.mem_filter] at hs
  obtain ⟨cid, ⟨hmemdedup, hcid⟩, rfl⟩ := hs
  have hne : clusterMembers rows cid ≠ [] := by
    obtain ⟨r, hr, hrl⟩ := List.mem_map.mp (mem_of_mem_dedupFirst hmemdedup)
    exact List.ne_nil_of_mem (List.mem_filter.mpr ⟨hr, by simp [hrl]⟩)
  have hlen2 : ∀ v ∈ (clusterMembers rows cid).map (fun m => m.emb), v.length = d := by
    intro v hv
    obtain ⟨m, hm, rfl⟩ := List.mem_map.mp hv
    exact hd m (List.mem_of_mem_filter hm)
  have hmapne : (clusterMembers rows cid).map (fun m => m.emb) ≠ [] := by
    simpa using hne
  refine ⟨hne, rfl, meanVec_length hlen2 hmapne, ?_⟩
  intro j hj
  have h := meanVec_getD hlen2 hmapne hj
  simp only [List.map_map, List.length_map] at h
  exact h

/-- Witness for C1 on the sample rows: one cluster of a single member
with embedding entry five. -/
theorem centroid_is_member_mean_witness :
    (∀ r ∈ rowsW, r.emb.length = 1) ∧
    summaryW ∈ computeSummaries rowsW ∧
    (clusterMembers rowsW summaryW.id ≠ [] ∧
     summaryW.size = (clusterMembers rowsW summaryW.id).length ∧
     summaryW.centroid.length = 1 ∧
     ∀ j, j < 1 →
       summaryW.centroid.getD j 0 =
         ((clusterMembers rowsW summaryW.id).map (fun m => m.emb.getD j 0)).sum /
           ((clusterMembers rowsW summaryW.id).length : ℚ)) :=
  ⟨by decide,
   by simp [computeSummaries, dedupFirst, mkSummary, clusterMembers, meanVec, sumVecs,
     addVec, sqDist, argminIdx, rowsW, summaryW, CLUSTERING_VERSION],
   centroid_is_member_mean rowsW 1 (by decide) summaryW
     (by simp [computeSummaries, dedupFirst, mkSummary, clusterMembers, meanVec, sumVecs,
       addVec, sqDist, argminIdx, rowsW, summaryW, CLUSTERING_VERSION])⟩

/-- C2: for every summary the Cluster Summarizer produces, the
representative query is the query of a member whose embedding attains the
minimal distance to the centroid over all members of the cluster, in
squared and therefore also in Euclidean distance, and every member
earlier in working-set order is at a strictly larger distance, so the tie
between members at the minimum goes to the first occurrence. -/
theorem representative_is_nearest_member (rows : List LabeledRow) :
    ∀ s ∈ computeSummaries rows,
      ∃ k, k < (clusterMembers rows s.id).length ∧
        s.representative_query = ((clusterMembers rows s.id).getD k default).query ∧
        (∀ j, j < (clusterMembers rows s.id).length →
          sqDist ((clusterMembers rows s.id).getD k default).emb s.centroid ≤
            sqDist ((clusterMembers rows s.id).getD j default).emb s.centroid) ∧
        (∀ j, j < k →
          sqDist ((clusterMembers rows s.id).getD k default).emb s.centroid <
            sqDist ((clusterMembers rows s.id).getD j default).emb s.centroid) ∧
        (∀ j, j < (clusterMembers rows s.id).length →
          Real.sqrt (sqDist ((clusterMembers rows s.id).getD k default).emb s.centroid : ℝ) ≤
            Real.sqrt (sqDist ((clusterMembers rows s.id).getD j default).emb s.centroid : ℝ)) := by
  intro s hs
  simp only [computeSummaries, List.mem_map, List.mem_filter] at hs
  obtain ⟨cid, ⟨hmemdedup, hcid⟩, rfl⟩ := hs
  have hne : clusterMembers rows cid ≠ [] := by
    obtain ⟨r, hr, hrl⟩ := List.mem_map.mp (mem_of_mem_dedupFirst hmemdedup)
    exact List.ne_nil_of_mem (List.mem_filter.mpr ⟨hr, by simp [hrl]⟩)
  rw [mkSummary_eval]
  dsimp only
  set M := clusterMembers rows cid with hM
  set C := meanVec (M.map (fun m => m.emb)) with hC
  set D := M.map (fun m => sqDist m.emb C) with hD
  have hDne : D ≠ [] := by rw [hD]; simpa using hne
  have hDlen : D.length = M.length := by rw [hD]; exact List.length_map _ _
  have hgetD : ∀ j, j < M.length → D.getD j 0 = sqDist (M.getD j default).emb C := by
    intro j hj
    have hjm : j < (M.map (fun m => sqDist m.emb C)).length := by
      rw [List.length_map]; exact hj
    rw [hD, List.getD_eq_getElem _ _ hjm, List.getElem_map,
      ← List.getD_eq_getElem M default hj]
  have hk : argminIdx D < M.length := by rw [← hDlen]; exact argminIdx_lt_length hDne
  refine ⟨argminIdx D, hk, rfl, ?_, ?_, ?_⟩
  · intro j hj
    have h1 := argminIdx_min D j (by rw [hDlen]; exact hj)
    rwa [hgetD _ hk, hgetD _ hj] at h1
  · intro j hj
    have hjlen : j < M.length := lt_trans hj hk
    have h1 := argminIdx_first D j hj
    rwa [hgetD _ hk, hgetD _ hjlen] at h1
  · intro j hj
    have h1 := argminIdx_min D j (by rw [hDlen]; exact hj)
    rw [hgetD _ hk, hgetD _ hj] at h1
    exact Real.sqrt_le_sqrt (by exact_mod_cast h1)

/-- Witness for C2 on the sample rows. -/
theorem representative_is_nearest_member_witness :
    summaryW ∈ computeSummaries rowsW ∧
    (∃ k, k < (clusterMembers rowsW summaryW.id).length ∧
      summaryW.representative_query =
        ((clusterMembers rowsW summaryW.id).getD k default).query ∧
      (∀ j, j < (clusterMembers rowsW summaryW.id).length →
        sqDist ((clusterMembers rowsW summaryW.id).getD k default).emb summaryW.centroid ≤
          sqDist ((clusterMembers rowsW summaryW.id).getD j default).emb summaryW.centroid) ∧
      (∀ j, j < k →
        sqDist ((clusterMembers rowsW summaryW.id).getD k default).emb summaryW.centroid <
          sqDist ((clusterMembers rowsW summaryW.id).getD j default).emb summaryW.centroid) ∧
      (∀ j, j < (clusterMembers rowsW summaryW.id).length →
        Real.sqrt
            (sqDist ((clusterMembers rowsW summaryW.id).getD k default).emb
              summaryW.centroid : ℝ) ≤
          Real.sqrt
            (sqDist ((clusterMembers rowsW summaryW.id).getD j default).emb
              summaryW.centroid : ℝ))) :=
  ⟨by simp [computeSummaries, dedupFirst, mkSummary, clusterMembers, meanVec, sumVecs,
     addVec, sqDist, argminIdx, rowsW, summaryW, CLUSTERING_VERSION],
   representative_is_nearest_member rowsW summaryW
     (by simp [computeSummaries, dedupFirst, mkSummary, clusterMembers, meanVec, sumVecs,
       addVec, sqDist, argminIdx, rowsW, summaryW, CLUSTERING_VERSION])⟩

/-- C4 counterexample: in incremental mode a record classified as noise
by an earlier run (null cluster id, noise flag set) is selected into the
working set again: the selection consults only the cluster id, not the
noise flag, so the working set is not restricted to never-processed
records. -/
theorem incremental_reselects_noise_records :
    recNoise ∈ workingSet [recNoise] false ∧ recNoise.isNoise = true := by decide

/-- C4 (amended): in incremental mode the working set contains only
records with a null cluster id, regardless of the noise flag; and when
record ids are unique, a record holding a non-null cluster id before the
run is never the target of any update the run writes. -/
theorem incremental_scope_and_frame (store : List InteractionRecord)
    (hl : ℕ → List (List ℚ) → List ℤ) (ops : StoreOps)
    (hid : (store.map (fun r => r.id)).Nodup) :
    (∀ r ∈ workingSet store false, r.clusterId = none) ∧
    (∀ r ∈ store, ∀ c : ℤ, r.clusterId = some c →
      ∀ u ∈ outcomeUpdates (runMain store false hl ops), u.id ≠ r.id) := by
  constructor
  · intro r hr
    exact workingSet_incremental_unassigned hr
  · intro r hr c hc u hu hne
    obtain ⟨row, rfl, v, hv, hvid⟩ := runMain_update_source hu
    have hne2 : row.id = r.id := hne
    have hvstore : v ∈ store := by
      simp only [workingSet, selectRecords, Bool.false_eq_true, if_false,
        List.mem_filter] at hv
      exact hv.1.1
    have hids : v.id = r.id := by rw [← hvid]; exact hne2
    have hveq : v = r := List.inj_on_of_nodup_map hid hvstore hr hids
    have hnone := workingSet_incremental_unassigned hv
    rw [hveq, hc] at hnone
    exact Option.noConfusion hnone

/-- Witness for the amended C4 claim: a two-record store where the record
with id 3 is already assigned to cluster 3. -/
theorem incremental_scope_and_frame_witness :
    (([recAssigned, recA]).map (fun r => r.id)).Nodup ∧
    ((∀ r ∈ workingSet [recAssigned, recA] false, r.clusterId = none) ∧
     (∀ r ∈ [recAssigned, recA], ∀ c : ℤ, r.clusterId = some c →
       ∀ u ∈ outcomeUpdates (runMain [recAssigned, recA] false hlAllNoise noFailOps),
         u.id ≠ r.id)) :=
  ⟨by decide,
    incremental_scope_and_frame [recAssigned, recA] hlAllNoise noFailOps (by decide)⟩

/-- C6 counterexample: a record whose stored embedding text parses to a
non-empty list holding a string rather than numbers passes the validator
and enters the working set, although the claim says any text not decoding
to a non-empty list of numbers is excluded. -/
theorem validator_accepts_nonnumeric_list :
    isValidEmbedding recBadList.embedding = true ∧
    recBadList ∈ workingSet [recBadList] false := by decide

/-- C6 (amended): a record failing the inline validator of main (a null
embedding, the literal string None, the empty string, unparsable text, or
any value that is not a non-empty list; element types are not checked) is
excluded from the working set, and its exclusion leaves the updates, the
summaries and the success of the run exactly as if the record were absent
from the store: the record is never clustered, never updated, and its
rejection does not abort the run. -/
theorem invalid_embedding_excluded (pre post : List InteractionRecord)
    (r : InteractionRecord) (mode : Bool) (hl : ℕ → List (List ℚ) → List ℤ)
    (ops : StoreOps) (hinv : isValidEmbedding r.embedding = false) :
    r ∉ workingSet (pre ++ r :: post) mode ∧
    outcomeUpdates (runMain (pre ++ r :: post) mode hl ops) =
      outcomeUpdates (runMain (pre ++ post) mode hl ops) ∧
    outcomeSummaries (runMain (pre ++ r :: post) mode hl ops) =
      outcomeSummaries (runMain (pre ++ post) mode hl ops) ∧
    isSuccess (runMain (pre ++ r :: post) mode hl ops) =
      isSuccess (runMain (pre ++ post) mode hl ops) := by
  have hval := filter_valid_erase pre post r mode hinv
  refine ⟨?_, ?_⟩
  · intro hr
    simp only [workingSet, List.mem_filter] at hr
    rw [hinv] at hr
    exact Bool.false_ne_true hr.2
  · by_cases eA : (selectRecords (pre ++ r :: post) mode).isEmpty = true
    · have eB : (selectRecords (pre ++ post) mode).isEmpty = true := by
        rw [List.isEmpty_iff, List.eq_nil_iff_forall_not_mem] at eA ⊢
        intro b hb
        exact eA b (selectRecords_mono hb)
      simp [runMain, eA, eB, outcomeUpdates, outcomeSummaries, isSuccess]
    · by_cases eB : (selectRecords (pre ++ post) mode).isEmpty = true
      · have hBnil : selectRecords (pre ++ post) mode = [] := List.isEmpty_iff.mp eB
        have hAval : (selectRecords (pre ++ r :: post) mode).filter
            (fun x => isValidEmbedding x.embedding) = [] := by
          rw [hval, hBnil]; rfl
        simp [runMain, eA, eB, hAval, outcomeUpdates, outcomeSummaries, isSuccess]
      · simp only [runMain]
        rw [if_neg eA, if_neg eB, hval]
        exact ⟨rfl, rfl, rfl⟩

/-- Witness for the amended C6 claim: a null-embedding record placed
between two valid records. -/
theorem invalid_embedding_excluded_witness :
    isValidEmbedding recNullEmb.embedding = false ∧
    (recNullEmb ∉ workingSet ([recA] ++ recNullEmb :: [recB]) false ∧
     outcomeUpdates (runMain ([recA] ++ recNullEmb :: [recB]) false hlAllNoise noFailOps) =
       outcomeUpdates (runMain ([recA] ++ [recB]) false hlAllNoise noFailOps) ∧
     outcomeSummaries (runMain ([recA] ++ recNullEmb :: [recB]) false hlAllNoise noFailOps) =
       outcomeSummaries (runMain ([recA] ++ [recB]) false hlAllNoise noFailOps) ∧
     isSuccess (runMain ([recA] ++ recNullEmb :: [recB]) false hlAllNoise noFailOps) =
       isSuccess (runMain ([recA] ++ [recB]) false hlAllNoise noFailOps)) :=
  ⟨by decide,
    invalid_embedding_excluded [recA] [recB] recNullEmb false hlAllNoise noFailOps (by decide)⟩

/-- C7 counterexample: with two records in the working set and a store
where the update of the first record raises, the executed pipeline aborts
as a fatal error with no update applied: the failure is not caught and
the update of the second record is never attempted. -/
theorem main_update_failure_aborts_run :
    (workingSet [recA, recB] false).length = 2 ∧
    runMain [recA, recB] false hlAllNoise opsFail1 = RunOutcome.fatalError [] := by decide

/-- C7 (amended): the library Persistence Sync function update_supabase
attempts one update per record, each inside its own exception handler:
whatever the store failures, every record of the working set has its own
update attempt in the event trace, and the trace holds exactly one event
per record and one per summary. -/
theorem update_supabase_attempts_all_records (ops : StoreOps)
    (rows : List LabeledRow) (clusters : List ClusterSummary) :
    (∀ r ∈ rows, updateEvent ops r ∈ update_supabase ops rows clusters) ∧
    (update_supabase ops rows clusters).length = rows.length + clusters.length := by
  constructor
  · intro r hr
    exact List.mem_append_left _ (List.mem_map_of_mem _ hr)
  · simp [update_supabase]

/-- Witness for the amended C7 claim: the second row keeps its attempt in
the trace although the update of the first row raises. -/
theorem update_supabase_attempts_all_records_witness :
    (⟨2, "b", [7], -1⟩ : LabeledRow) ∈ [(⟨1, "a", [5], -1⟩ : LabeledRow), ⟨2, "b", [7], -1⟩] ∧
    updateEvent opsFail1 ⟨2, "b", [7], -1⟩ ∈
      update_supabase opsFail1 [⟨1, "a", [5], -1⟩, ⟨2, "b", [7], -1⟩] [] :=
  ⟨by decide,
    (update_supabase_attempts_all_records opsFail1
      [⟨1, "a", [5], -1⟩, ⟨2, "b", [7], -1⟩] []).1 _ (by decide)⟩

/-- C8 counterexample: the executed pipeline upserts the summary list in
one bulk call with no per-cluster handling: when that call raises, the
run aborts as a fatal error and no summary is recorded. -/
theorem main_bulk_upsert_failure_fatal :
    isSuccess (runMain [recA, recB] false hlAllZero opsBulkFail) = false ∧
    outcomeSummaries (runMain [recA, recB] false hlAllZero opsBulkFail) = [] := by decide

/-- C8 (amended): the library Persistence Sync function update_supabase
upserts each summary inside its own exception handler, so every summary
has its own upsert attempt in the trace whatever the store failures; and
upsert by id inserts the summary when its id is absent from the table,
overwrites the entries carrying its id when present, and leaves entries
with other ids in place. -/
theorem upsert_per_cluster_and_by_id (ops : StoreOps) (rows : List LabeledRow)
    (clusters : List ClusterSummary) (table : List ClusterSummary) (c : ClusterSummary) :
    (∀ x ∈ clusters, upsertEvent ops x ∈ update_supabase ops rows clusters) ∧
    c ∈ upsertById table c ∧
    (∀ x ∈ table, x.id ≠ c.id → x ∈ upsertById table c) ∧
    ((∀ x ∈ table, x.id ≠ c.id) → upsertById table c = table ++ [c]) := by
  refine ⟨?_, ?_, ?_, ?_⟩
  · intro x hx
    exact List.mem_append_right _ (List.mem_map_of_mem _ hx)
  · by_cases hp : table.any (fun x => x.id == c.id) = true
    · rw [upsertById, if_pos hp]
      obtain ⟨x, hx, hxe⟩ := List.any_eq_true.mp hp
      have hxid : x.id = c.id := by simpa using hxe
      exact List.mem_map.mpr ⟨x, hx, by simp [hxid]⟩
    · rw [upsertById, if_neg hp]
      simp
  · intro x hx hne
    by_cases hp : table.any (fun y => y.id == c.id) = true
    · rw [upsertById, if_pos hp]
      exact List.mem_map.mpr ⟨x, hx, by simp [hne]⟩
    · rw [upsertById, if_neg hp]
      exact List.mem_append_left _ hx
  · intro hall
    have hfalse : table.any (fun y => y.id == c.id) = false := by
      rw [List.any_eq_false]
      intro y hy
      simpa using hall y hy
    simp [upsertById, hfalse]

/-- Witness for the amended C8 claim on a one-summary trace. -/
theorem upsert_per_cluster_and_by_id_witness :
    summaryW ∈ [summaryW] ∧
    upsertEvent noFailOps summaryW ∈ update_supabase noFailOps [] [summaryW] :=
  ⟨by decide,
    (upsert_per_cluster_and_by_id noFailOps [] [summaryW] [] summaryW).1 _ (by decide)⟩

/-- C10: when the clusterer marks every point of a non-empty working set
as noise and no store call fails, the run completes: it produces zero
summaries, and it writes exactly one update per working-set record
carrying a null cluster id, the noise flag, and the version tag of the
run. -/
theorem all_noise_run_completes (store : List InteractionRecord) (mode : Bool)
    (hl : ℕ → List (List ℚ) → List ℤ) (ops : StoreOps) (X : List (List ℚ))
    (hne : workingSet store mode ≠ [])
    (hX : toVecs (workingSet store mode) = some X)
    (hlen : sameLengths X = true)
    (hnoise : hl (main_min_cluster_size X.length) X = List.replicate X.length (-1))
    (hops : ∀ n, ops.updateFails n = false) :
    runMain store mode hl ops =
      RunOutcome.completed
        ((workingSet store mode).map
          (fun r => ⟨r.id, none, true, CLUSTERING_VERSION⟩)) [] := by
  have hsel : ¬ (selectRecords store mode).isEmpty = true := by
    rw [List.isEmpty_iff]
    intro h0
    exact hne (by simp [workingSet, h0])
  have hval : ¬ ((selectRecords store mode).filter
      (fun r => isValidEmbedding r.embedding)).isEmpty = true := by
    rw [List.isEmpty_iff]
    exact hne
  simp only [runMain]
  rw [if_neg hsel, if_neg hval]
  show runCore (workingSet store mode) hl ops = _
  have hXlen : X.length = (workingSet store mode).length := toVecs_length hX
  have hrows_noise : ∀ row ∈ zipRows (workingSet store mode) X
      (hl (main_min_cluster_size X.length) X), row.label = -1 := by
    intro row hr
    rw [hnoise] at hr
    obtain ⟨v, hv, -, -, hlab⟩ := mem_zipRows hr
    exact List.eq_of_mem_replicate hlab
  have hsum : computeSummaries (zipRows (workingSet store mode) X
      (hl (main_min_cluster_size X.length) X)) = [] := by
    simp only [computeSummaries, List.map_eq_nil_iff]
    rw [List.filter_eq_nil_iff]
    intro a ha
    have ha2 := mem_of_mem_dedupFirst ha
    obtain ⟨row, hrow, rfl⟩ := List.mem_map.mp ha2
    simp [hrows_noise row hrow]
  have hupd := mainUpdateLoop_ok hops
    (zipRows (workingSet store mode) X (hl (main_min_cluster_size X.length) X))
  simp only [runCore]
  split
  · rename_i heq
    rw [hX] at heq
    exact Option.noConfusion heq
  · rename_i X2 heq
    rw [hX] at heq
    injection heq with heq2
    subst heq2
    rw [if_pos hlen, hupd]
    show (if (computeSummaries (zipRows (workingSet store mode) X
      (hl (main_min_cluster_size X.length) X))).isEmpty = true
      then RunOutcome.completed ((zipRows (workingSet store mode) X
        (hl (main_min_cluster_size X.length) X)).map mkUpdate)
        (computeSummaries (zipRows (workingSet store mode) X
          (hl (main_min_cluster_size X.length) X)))
      else if ops.bulkUpsertFails = true
        then RunOutcome.fatalError ((zipRows (workingSet store mode) X
          (hl (main_min_cluster_size X.length) X)).map mkUpdate)
        else RunOutcome.completed ((zipRows (workingSet store mode) X
          (hl (main_min_cluster_size X.length) X)).map mkUpdate)
          (computeSummaries (zipRows (workingSet store mode) X
            (hl (main_min_cluster_size X.length) X)))) = _
    rw [hsum]
    simp only [List.isEmpty_nil, if_true]
    rw [hnoise, zipRows_map_mkUpdate_all_noise (workingSet store mode) X hXlen]

/-- Witness for C10: a two-record working set fully marked as noise. -/
theorem all_noise_run_completes_witness :
    (workingSet [recA, recB] false ≠ [] ∧
     toVecs (workingSet [recA, recB] false) = some [[5], [7]] ∧
     sameLengths [[5], [7]] = true ∧
     hlAllNoise (main_min_cluster_size (List.length [[5], [7]])) [[5], [7]] =
       List.replicate (List.length [[5], [7]]) (-1) ∧
     (∀ n, noFailOps.updateFails n = false)) ∧
    runMain [recA, recB] false hlAllNoise noFailOps =
      RunOutcome.completed
        ((workingSet [recA, recB] false).map
          (fun r => ⟨r.id, none, true, CLUSTERING_VERSION⟩)) [] :=
  ⟨⟨by decide, by decide, by decide, by decide, fun _ => rfl⟩,
    all_noise_run_completes [recA, recB] false hlAllNoise noFailOps [[5], [7]]
      (by decide) (by decide) (by decide) (by decide) (fun _ => rfl)⟩

/-- Witness for C9 on a store holding one record with a null embedding. -/
theorem empty_working_set_success_witness :
    workingSet [recNullEmb] false = [] ∧
    (isSuccess (runMain [recNullEmb] false hlAllNoise noFailOps) = true ∧
     outcomeUpdates (runMain [recNullEmb] false hlAllNoise noFailOps) = [] ∧
     outcomeSummaries (runMain [recNullEmb] false hlAllNoise noFailOps) = [] ∧
     runMain [recNullEmb] false hlAllNoise noFailOps =
       runMain [recNullEmb] false hlAllZero opsBulkFail) :=
  ⟨by decide,
    empty_working_set_success [recNullEmb] false hlAllNoise hlAllZero noFailOps opsBulkFail
      (by decide)⟩

end Clustering
